import Mathlib

/-!
Verification of the MoonTV video-download route (`src/app/api/download/route.ts`).

The development shallowly embeds the `POST` handler and the
`convertHLSToMP4` helper: strings are Lean `String`s (sequences of Unicode
code points), the promise executor of `convertHLSToMP4` is a settle-once
state machine driven by a list of process events, and the handler `post`
is a pure function of the request together with an environment describing
the behaviour of the external process and the filesystem.
-/

set_option autoImplicit false

namespace MoonTV

/-! ## String primitives -/

/-- `beginsWith n h` holds when the list `h` starts with the list `n`. -/
def beginsWith : List Char → List Char → Bool
  | [], _ => true
  | _ :: _, [] => false
  | a :: n, b :: h => a == b && beginsWith n h

/-- `hasSub n h` holds when `n` occurs as a contiguous sublist of `h`.
This models JavaScript `String.prototype.includes`. -/
def hasSub (n : List Char) : List Char → Bool
  | [] => beginsWith n []
  | c :: h => beginsWith n (c :: h) || hasSub n h

/-- `strIncludes s sub` models `s.includes(sub)` from the route handler. -/
def strIncludes (s sub : String) : Bool :=
  hasSub sub.data s.data

/-! ## FileNaming (`safeFileName` in the route)

The route computes
`(fileName || '视频').replace(/[^\w\s-]/g, '') + '.mp4'`.
JavaScript `\w` (no `u` flag) is the ASCII class `[A-Za-z0-9_]`, and `\s`
is the ECMA-262 WhiteSpace ∪ LineTerminator set.  The `replace` with the
negated class deletes every character that is neither an ASCII word
character, nor ECMA whitespace, nor a hyphen. -/

/-- ECMA-262 `\w`: ASCII letters, ASCII digits and underscore. -/
def jsWordChar (c : Char) : Bool :=
  (65 ≤ c.toNat && c.toNat ≤ 90) || (97 ≤ c.toNat && c.toNat ≤ 122) ||
  (48 ≤ c.toNat && c.toNat ≤ 57) || c.toNat == 95

/-- ECMA-262 `\s`: WhiteSpace and LineTerminator code points. -/
def jsSpaceChar (c : Char) : Bool :=
  (9 ≤ c.toNat && c.toNat ≤ 13) || c.toNat == 32 || c.toNat == 160 ||
  c.toNat == 0x1680 || (0x2000 ≤ c.toNat && c.toNat ≤ 0x200A) ||
  c.toNat == 0x2028 || c.toNat == 0x2029 || c.toNat == 0x202F ||
  c.toNat == 0x205F || c.toNat == 0x3000 || c.toNat == 0xFEFF

/-- Characters surviving `replace(/[^\w\s-]/g, '')`. -/
def jsKeepChar (c : Char) : Bool :=
  jsWordChar c || jsSpaceChar c || c.toNat == 45

/-- `fileName || '视频'`: the default base name when the hint is absent
(`none`) or the empty string (both are falsy in JavaScript). -/
def baseChoice : Option String → String
  | none => "视频"
  | some h => if h = "" then "视频" else h

/-- `safeFileName`: strip the characters rejected by `[\w\s-]` from the
(defaulted) hint and append the fixed `.mp4` extension. -/
def deriveFileName (hint : Option String) : String :=
  String.mk ((baseChoice hint).data.filter jsKeepChar) ++ ".mp4"

/-! ## Stream-type classification -/

/-- `isHLS`: `videoUrl.includes('.m3u8')`. -/
def isHLS (url : String) : Bool :=
  strIncludes url ".m3u8"

/-! ## FallbackAdvisory (`methods` array in the failure response) -/

/-- One entry of the `methods` array. Field order: name, description,
command, install, note; absent JSON fields are `none`. -/
structure MethodEntry where
  name : String
  description : String
  command : Option String
  install : Option String
  note : Option String
deriving Repr, DecidableEq

/-- `yt-dlp "${videoUrl}" -o "${safeFileName}"`. -/
def ytDlpCmd (url fn : String) : String :=
  "yt-dlp \"" ++ url ++ "\" -o \"" ++ fn ++ "\""

/-- `ffmpeg -i "${videoUrl}" -c copy "${safeFileName}"`. -/
def ffmpegCmd (url fn : String) : String :=
  "ffmpeg -i \"" ++ url ++ "\" -c copy \"" ++ fn ++ "\""

/-- The fixed, ordered `methods` list of the failure response. -/
def fallbackMethods (url fn : String) : List MethodEntry :=
  [ ⟨"yt-dlp", "强大的视频下载工具，支持多种格式",
      some (ytDlpCmd url fn),
      some "pip install yt-dlp 或从 https://github.com/yt-dlp/yt-dlp/releases 下载",
      none⟩,
    ⟨"FFmpeg", "专业的音视频处理工具",
      some (ffmpegCmd url fn),
      some "从 https://ffmpeg.org/download.html 下载或使用包管理器安装",
      none⟩,
    ⟨"IDM (Internet Download Manager)", "Windows平台的下载管理器",
      none, none, some "直接粘贴链接即可下载"⟩,
    ⟨"迅雷", "国内常用的下载工具",
      none, none, some "支持HLS流下载"⟩ ]

/-- `error` field of the failure response. -/
def convErrMsg : String := "HLS视频流转换失败"

/-- `suggestion` field of the failure response. -/
def convSuggestion : String := "建议使用以下方法下载HLS视频流"

/-! ## Paths and headers -/

/-- `path.join(dir, component)` for a simple relative component. -/
def joinPath (d c : String) : String := d ++ "/" ++ c

/-- The `Content-Disposition` header value:
`attachment; filename="${safeFileName}"`. -/
def contentDisposition (fn : String) : String :=
  "attachment; filename=\"" ++ fn ++ "\""

/-- Everything before the last `/` of a path. -/
def dirname (p : String) : String :=
  String.mk (((p.data.reverse).dropWhile (fun c => c != '/')).tail.reverse)

/-! ## ProcessRunner and TimeoutGuard (`convertHLSToMP4`)

`convertHLSToMP4` wraps a promise executor around `spawn('ffmpeg', args)`:
a `stderr.on('data')` listener appends chunks to an accumulator, a
`close` listener resolves with the output path on exit code 0 and rejects
otherwise, an `error` listener rejects with the spawn error, and a
`setTimeout` of `10 * 60 * 1000` ms kills the process with SIGKILL and
rejects with the timeout message.  A promise settles at most once: the
first call to resolve/reject wins and later calls are ignored.  We model
one invocation as a fold of a settle-once state machine over the list of
callback events, in the order the event loop delivers them. -/

/-- Timeout installed by `setTimeout` (milliseconds). -/
def TIMEOUT_MS : Nat := 10 * 60 * 1000

/-- The rejection values produced by `convertHLSToMP4`, tagged by the
code path that produced them (the code rejects with `Error` objects whose
messages are rebuilt by `errMessage`). -/
inductive FfmpegErr where
  /-- `close` with exit code ≠ 0: carries the exit code (`none` models a
  JavaScript `null` code after a signal kill) and the accumulated
  stderr. -/
  | nonZeroExit (code : Option Int) (stderr : String)
  /-- `'error'` event: the process could not be spawned. -/
  | spawnError (msg : String)
  /-- The `setTimeout` deadline fired. -/
  | timedOut
deriving Repr, DecidableEq

/-- Text of `${code}` for `code : number | null`. -/
def codeText : Option Int → String
  | none => "null"
  | some n => toString n

/-- The `Error` messages built by the three reject sites. -/
def errMessage : FfmpegErr → String
  | FfmpegErr.nonZeroExit c stderr =>
      "FFmpeg转换失败，退出码: " ++ codeText c ++ "\n" ++ stderr
  | FfmpegErr.spawnError msg => "FFmpeg进程错误: " ++ msg
  | FfmpegErr.timedOut => "FFmpeg转换超时"

/-- How the promise settled. -/
inductive Settlement where
  | resolved (outputPath : String)
  | rejected (e : FfmpegErr)
deriving Repr, DecidableEq

/-- Callback events delivered to the executor, in event-loop order. -/
inductive RunnerEvent where
  /-- `stderr.on('data')` with a chunk. -/
  | stderrData (chunk : String)
  /-- `'close'` with the exit code (`none` = `null`). -/
  | close (code : Option Int)
  /-- `'error'` (spawn failure) with the error message. -/
  | procError (msg : String)
  /-- The `setTimeout` deadline fired. -/
  | timeoutFire
deriving Repr, DecidableEq

/-- Events that call resolve or reject (as opposed to only accumulating
stderr). -/
def settles : RunnerEvent → Bool
  | RunnerEvent.stderrData _ => false
  | _ => true

/-- Executor state: accumulated stderr, settle-once slot, and whether
`kill('SIGKILL')` has been issued. -/
structure RunnerState where
  stderr : String
  settled : Option Settlement
  killed : Bool
deriving Repr, DecidableEq

/-- Initial executor state. -/
def initState : RunnerState := ⟨"", none, false⟩

/-- One callback firing.  `stderr += data` runs unconditionally; resolve
and reject only take effect while the promise is unsettled; the timeout
callback kills the process unconditionally and then tries to reject. -/
def runnerStep (outputPath : String) (st : RunnerState) :
    RunnerEvent → RunnerState
  | RunnerEvent.stderrData chunk => ⟨st.stderr ++ chunk, st.settled, st.killed⟩
  | RunnerEvent.close code =>
      match st.settled with
      | some _ => st
      | none =>
          if code = some 0 then
            ⟨st.stderr, some (Settlement.resolved outputPath), st.killed⟩
          else
            ⟨st.stderr,
             some (Settlement.rejected (FfmpegErr.nonZeroExit code st.stderr)),
             st.killed⟩
  | RunnerEvent.procError msg =>
      match st.settled with
      | some _ => st
      | none =>
          ⟨st.stderr,
           some (Settlement.rejected (FfmpegErr.spawnError msg)), st.killed⟩
  | RunnerEvent.timeoutFire =>
      match st.settled with
      | some _ => ⟨st.stderr, st.settled, true⟩
      | none =>
          ⟨st.stderr, some (Settlement.rejected FfmpegErr.timedOut), true⟩

/-- One `convertHLSToMP4` invocation over an event trace. -/
def runTrace (outputPath : String) (evs : List RunnerEvent) : RunnerState :=
  evs.foldl (runnerStep outputPath) initState

/-- Stderr text accumulated by the data events of a trace. -/
def stderrAccum : List RunnerEvent → String
  | [] => ""
  | RunnerEvent.stderrData s :: rest => s ++ stderrAccum rest
  | _ :: rest => stderrAccum rest

/-! ## The orchestrator (`POST` handler)

The handler is modelled as a pure function of the parsed request body and
an environment that fixes the behaviour of everything outside the
handler: the event trace of the spawned process, the result of
`fs.readFile`, whether `fs.unlink` fails, whether the failed transcoder
left an output file behind, the `randomUUID()` value and `tmpdir()`.

Alongside the response we record the externally observable effects the
claims talk about: whether a process was spawned, whether a temporary
output path was allocated, how many deletion attempts were made on it,
and whether the temporary file still exists when the handler returns. -/

/-- Parsed request body `{ videoUrl, fileName }`; `none` models an absent
field. -/
structure DownloadRequest where
  videoUrl : Option String
  fileName : Option String
deriving Repr, DecidableEq

/-- Environment of one invocation. -/
structure Env where
  /-- Callback events of the spawned ffmpeg process, in delivery order. -/
  events : List RunnerEvent
  /-- `fs.readFile(outputPath)`: `some bytes` on success, `none` when the
  read rejects. -/
  readResult : Option (List Nat)
  /-- Whether `fs.unlink(outputPath)` rejects (swallowed by `.catch`). -/
  unlinkFails : Bool
  /-- Whether the failed transcoder left an output file on disk. -/
  createdOnFailure : Bool
  /-- `randomUUID()`. -/
  uuid : String
  /-- `tmpdir()`. -/
  tmpDir : String
deriving Repr, DecidableEq

/-- `join(tmpdir(), randomUUID() + '_' + fileName)`. -/
def outPath (env : Env) (fn : String) : String :=
  joinPath env.tmpDir (env.uuid ++ "_" ++ fn)

/-- The distinct response shapes of the handler. -/
inductive ApiResponse where
  /-- 400 `{ error: '缺少视频URL参数' }`. -/
  | errorMissingUrl
  /-- `{ success: true, directDownload: true, url, fileName }`. -/
  | directLink (url fileName : String)
  /-- Binary body with `Content-Disposition` and `Content-Length`. -/
  | fileResponse (bytes : List Nat) (disposition : String) (length : Nat)
  /-- `{ success: false, error, suggestion, methods, videoUrl, fileName }`. -/
  | fallback (error suggestion : String) (methods : List MethodEntry)
      (videoUrl fileName : String)
  /-- 500 `{ error: '服务器内部错误', details }`. -/
  | serverError (details : String)
deriving Repr, DecidableEq

/-- Externally observable effects of one invocation. -/
structure Effects where
  /-- Whether `spawn('ffmpeg', ...)` ran. -/
  spawned : Bool
  /-- Whether a temporary output path was allocated. -/
  tempPathAllocated : Bool
  /-- Number of deletion attempts on the temporary file. -/
  unlinkAttempts : Nat
  /-- Whether the temporary file exists when the handler returns. -/
  tempFileAtReturn : Bool
deriving Repr, DecidableEq

/-- Effects of a request that never reaches `convertHLSToMP4`. -/
def noEffects : Effects := ⟨false, false, 0, false⟩

/-- The `POST` handler.  Returns `none` when the invocation never
finishes (the promise never settles, so the `await` suspends forever).

Control flow mirrors the source: validate `videoUrl`, derive
`safeFileName`, short-circuit non-HLS URLs, otherwise run the transcoder;
on a resolved promise read the file (a successful read is followed by
exactly one `unlink` whose failure is swallowed; a failed read throws
into the same `catch` as a transcoder failure, skipping the `unlink`);
on a rejected promise return the advisory response. -/
def post (env : Env) (req : DownloadRequest) :
    Option (ApiResponse × Effects) :=
  match req.videoUrl with
  | none => some (ApiResponse.errorMissingUrl, noEffects)
  | some url =>
      if url = "" then some (ApiResponse.errorMissingUrl, noEffects)
      else if isHLS url = false then
        some (ApiResponse.directLink url (deriveFileName req.fileName),
              noEffects)
      else
        match (runTrace (outPath env (deriveFileName req.fileName))
            env.events).settled with
        | none => none
        | some (Settlement.resolved _) =>
            match env.readResult with
            | some bytes =>
                some (ApiResponse.fileResponse bytes
                        (contentDisposition (deriveFileName req.fileName))
                        bytes.length,
                      ⟨true, true, 1, env.unlinkFails⟩)
            | none =>
                some (ApiResponse.fallback convErrMsg convSuggestion
                        (fallbackMethods url (deriveFileName req.fileName))
                        url (deriveFileName req.fileName),
                      ⟨true, true, 0, true⟩)
        | some (Settlement.rejected _) =>
            some (ApiResponse.fallback convErrMsg convSuggestion
                    (fallbackMethods url (deriveFileName req.fileName))
                    url (deriveFileName req.fileName),
                  ⟨true, true, 0, env.createdOnFailure⟩)

/-! ## Quoted fields of the advisory commands

How a consumer that honours double quotes reads a command line: the
spans between matching `"` pairs are the quoted arguments. -/

/-- Scan a character list; `none` = outside quotes, `some acc` = inside a
quoted span with `acc` holding the span's characters in reverse. -/
def quoteSpans : List Char → Option (List Char) → List (List Char)
  | [], _ => []
  | c :: rest, none =>
      if c = '"' then quoteSpans rest (some []) else quoteSpans rest none
  | c :: rest, some acc =>
      if c = '"' then acc.reverse :: quoteSpans rest none
      else quoteSpans rest (some (c :: acc))

/-- The quoted arguments of a command string, in order. -/
def quotedFields (s : String) : List (List Char) :=
  quoteSpans s.data none

/-! ## String lemmas -/

/-- Extensionality for `String` via its underlying character list. -/
theorem strExt {a b : String} (h : a.data = b.data) : a = b := by
  cases a; cases b; cases h; rfl

/-- `String.mk` is a left inverse of `String.data`. -/
theorem strMkData (s : String) : String.mk s.data = s := rfl

/-- `String.append` concatenates the underlying character lists. -/
theorem strDataAppend (a b : String) : (a ++ b).data = a.data ++ b.data := by
  cases a; cases b; rfl

/-- String concatenation is associative. -/
theorem strAppendAssoc (a b c : String) : a ++ b ++ c = a ++ (b ++ c) := by
  apply strExt
  simp [strDataAppend]

/-- Appending the empty string on the right is the identity. -/
theorem strAppendEmpty (s : String) : s ++ "" = s := by
  apply strExt
  simp [strDataAppend]

theorem beginsWith_iff : ∀ (n h : List Char),
    beginsWith n h = true ↔ ∃ t, h = n ++ t
  | [], h => by simp [beginsWith]
  | a :: n, [] => by
      simp [beginsWith]
  | a :: n, b :: h => by
      rw [beginsWith]
      simp only [Bool.and_eq_true, beq_iff_eq]
      constructor
      · rintro ⟨rfl, hb⟩
        obtain ⟨t, rfl⟩ := (beginsWith_iff n h).mp hb
        exact ⟨t, rfl⟩
      · rintro ⟨t, ht⟩
        rw [List.cons_append] at ht
        injection ht with h1 h2
        exact ⟨h1.symm, (beginsWith_iff n h).mpr ⟨t, h2⟩⟩

theorem hasSub_iff : ∀ (n h : List Char),
    hasSub n h = true ↔ ∃ p t, h = p ++ n ++ t
  | n, [] => by
      rw [hasSub]
      rw [beginsWith_iff]
      constructor
      · rintro ⟨t, ht⟩
        exact ⟨[], t, by simpa using ht⟩
      · rintro ⟨p, t, ht⟩
        have hp : p = [] ∧ n ++ t = [] := by
          constructor
          · cases p with
            | nil => rfl
            | cons x xs => simp at ht
          · cases p with
            | nil => simpa using ht.symm
            | cons x xs => simp at ht
        obtain ⟨x, hx⟩ := hp
        exact ⟨t, by simp_all⟩
  | n, c :: h => by
      rw [hasSub]
      simp only [Bool.or_eq_true]
      constructor
      · rintro (hb | hs)
        · obtain ⟨t, ht⟩ := (beginsWith_iff n (c :: h)).mp hb
          exact ⟨[], t, by simpa using ht⟩
        · obtain ⟨p, t, ht⟩ := (hasSub_iff n h).mp hs
          exact ⟨c :: p, t, by simp [ht]⟩
      · rintro ⟨p, t, ht⟩
        cases p with
        | nil =>
            left
            exact (beginsWith_iff n (c :: h)).mpr ⟨t, by simpa using ht⟩
        | cons x xs =>
            right
            rw [List.cons_append, List.cons_append] at ht
            injection ht with h1 h2
            exact (hasSub_iff n h).mpr ⟨xs, t, h2⟩

/-! ## Runner lemmas -/

/-- A settled promise stays settled with the same value: a later call to
resolve or reject is ignored. -/
theorem step_settled_stays (p : String) (st : RunnerState) (e : RunnerEvent)
    (s : Settlement) (h : st.settled = some s) :
    ((runnerStep p st e).settled = some s) := by
  obtain ⟨sd, so, k⟩ := st
  cases so with
  | none => cases h
  | some s0 =>
      injection h with h
      subst h
      cases e <;> rfl

/-- Settle-once over a whole residual trace. -/
theorem foldl_settled_stays (p : String) (evs : List RunnerEvent) :
    ∀ (st : RunnerState) (s : Settlement), st.settled = some s →
      (evs.foldl (runnerStep p) st).settled = some s := by
  induction evs with
  | nil => intro st s h; simpa using h
  | cons e rest ih =>
      intro st s h
      rw [List.foldl_cons]
      exact ih _ s (step_settled_stays p st e s h)

/-- Once `kill` has been issued it is never "unissued". -/
theorem step_killed_stays (p : String) (st : RunnerState) (e : RunnerEvent)
    (h : st.killed = true) : (runnerStep p st e).killed = true := by
  obtain ⟨sd, so, k⟩ := st
  cases h
  cases e with
  | stderrData c => rfl
  | close code =>
      cases so with
      | none =>
          by_cases hc : code = some 0 <;> simp [runnerStep, hc]
      | some s0 => rfl
  | procError m =>
      cases so with
      | none => rfl
      | some s0 => rfl
  | timeoutFire =>
      cases so with
      | none => rfl
      | some s0 => rfl

/-- Kill persistence over a whole residual trace. -/
theorem foldl_killed_stays (p : String) (evs : List RunnerEvent) :
    ∀ (st : RunnerState), st.killed = true →
      (evs.foldl (runnerStep p) st).killed = true := by
  induction evs with
  | nil => intro st h; simpa using h
  | cons e rest ih =>
      intro st h
      rw [List.foldl_cons]
      exact ih _ (step_killed_stays p st e h)

/-- Over data-only events the executor only accumulates stderr. -/
theorem foldl_data_only (p : String) (evs : List RunnerEvent) :
    ∀ (st : RunnerState), (∀ e ∈ evs, settles e = false) →
      evs.foldl (runnerStep p) st
        = ⟨st.stderr ++ stderrAccum evs, st.settled, st.killed⟩ := by
  induction evs with
  | nil =>
      intro st _
      rw [List.foldl_nil, stderrAccum, strAppendEmpty]
  | cons e rest ih =>
      intro st h
      have he : settles e = false := h e (List.mem_cons_self e rest)
      cases e with
      | stderrData chunk =>
          rw [List.foldl_cons]
          have hr : runnerStep p st (RunnerEvent.stderrData chunk)
              = ⟨st.stderr ++ chunk, st.settled, st.killed⟩ := rfl
          rw [hr, ih _ (fun x hx => h x (List.mem_cons_of_mem _ hx))]
          rw [stderrAccum, strAppendAssoc]
      | close code => simp [settles] at he
      | procError m => simp [settles] at he
      | timeoutFire => simp [settles] at he

/-- The settlement of a trace whose first settling event is known: the
data-only events before it only feed the stderr accumulator, and all
events after it are ignored by the settle-once slot. -/
theorem runTrace_first_settling (p : String) (pre : List RunnerEvent)
    (e : RunnerEvent) (rest : List RunnerEvent)
    (hpre : ∀ x ∈ pre, settles x = false) (he : settles e = true) :
    (runTrace p (pre ++ e :: rest)).settled
      = (runnerStep p ⟨stderrAccum pre, none, false⟩ e).settled := by
  rw [runTrace, List.foldl_append, List.foldl_cons]
  rw [foldl_data_only p pre initState hpre]
  have hinit : (⟨initState.stderr ++ stderrAccum pre, initState.settled,
      initState.killed⟩ : RunnerState) = ⟨stderrAccum pre, none, false⟩ := rfl
  rw [hinit]
  cases e with
  | stderrData c => simp [settles] at he
  | close code =>
      by_cases hc : code = some 0
      · subst hc
        exact foldl_settled_stays p rest _ _ rfl
      · have hr : runnerStep p ⟨stderrAccum pre, none, false⟩
            (RunnerEvent.close code)
            = ⟨stderrAccum pre,
               some (Settlement.rejected
                 (FfmpegErr.nonZeroExit code (stderrAccum pre))), false⟩ := by
          simp [runnerStep, hc]
        rw [hr]
        exact foldl_settled_stays p rest _ _ rfl
  | procError m =>
      exact foldl_settled_stays p rest _ _ rfl
  | timeoutFire =>
      exact foldl_settled_stays p rest _ _ rfl

/-! ## Quoted-field lemmas -/

theorem quoteSpans_skip (s : List Char) :
    ∀ (t : List Char), '"' ∉ s →
      quoteSpans (s ++ t) none = quoteSpans t none := by
  induction s with
  | nil => intro t _; rfl
  | cons c cs ih =>
      intro t h
      have hc : ¬ (c = '"') := fun he => h (he ▸ List.mem_cons_self c cs)
      rw [List.cons_append, quoteSpans, if_neg hc]
      exact ih t (fun hx => h (List.mem_cons_of_mem c hx))

theorem quoteSpans_collect (s : List Char) :
    ∀ (t acc : List Char), '"' ∉ s →
      quoteSpans (s ++ t) (some acc) = quoteSpans t (some (s.reverse ++ acc)) := by
  induction s with
  | nil => intro t acc _; rfl
  | cons c cs ih =>
      intro t acc h
      have hc : ¬ (c = '"') := fun he => h (he ▸ List.mem_cons_self c cs)
      rw [List.cons_append, quoteSpans, if_neg hc]
      rw [ih t (c :: acc) (fun hx => h (List.mem_cons_of_mem c hx))]
      simp

/-- Parsing the common template `a"u"m"f"` (four literal quotes around
two interpolated arguments): when neither the fixed pieces nor the
arguments contain a quote, the quoted fields are exactly the two
arguments. -/
theorem quoteSpans_template (a u m f : List Char)
    (ha : '"' ∉ a) (hu : '"' ∉ u) (hm : '"' ∉ m) (hf : '"' ∉ f) :
    quoteSpans (a ++ '"' :: (u ++ '"' :: (m ++ '"' :: (f ++ ['"'])))) none
      = [u, f] := by
  rw [quoteSpans_skip a _ ha]
  rw [quoteSpans, if_pos rfl]
  rw [quoteSpans_collect u _ _ hu]
  rw [quoteSpans, if_pos rfl]
  rw [quoteSpans_skip m _ hm]
  rw [quoteSpans, if_pos rfl]
  rw [quoteSpans_collect f _ _ hf]
  rw [quoteSpans, if_pos rfl]
  simp [quoteSpans]

/-! ## Character-level facts about `deriveFileName` -/

/-- The characters of a derived file name: the filtered base followed by
the `.mp4` extension. -/
theorem deriveFileName_data (hint : Option String) :
    (deriveFileName hint).data
      = (baseChoice hint).data.filter jsKeepChar ++ ['.', 'm', 'p', '4'] := by
  rw [deriveFileName, strDataAppend]

/-- Every character of a derived file name either survived the
`[\w\s-]` filter or belongs to the fixed `.mp4` extension. -/
theorem deriveFileName_chars (hint : Option String) (c : Char)
    (hc : c ∈ (deriveFileName hint).data) :
    jsKeepChar c = true ∨ c ∈ (['.', 'm', 'p', '4'] : List Char) := by
  rw [deriveFileName_data] at hc
  rcases List.mem_append.mp hc with h | h
  · exact Or.inl (List.mem_filter.mp h).2
  · exact Or.inr h

/-- A character rejected by the filter and absent from `.mp4` never
occurs in a derived file name. -/
theorem deriveFileName_not_mem (hint : Option String) (c : Char)
    (h1 : jsKeepChar c = false)
    (h2 : c ∉ (['.', 'm', 'p', '4'] : List Char)) :
    c ∉ (deriveFileName hint).data := by
  intro hc
  rcases deriveFileName_chars hint c hc with h | h
  · rw [h1] at h; cases h
  · exact h2 h

/-! ## Path lemmas -/

theorem dropWhile_append_of_all (p : Char → Bool) (a : List Char) :
    ∀ (l : List Char), (∀ x ∈ a, p x = true) →
      List.dropWhile p (a ++ l) = List.dropWhile p l := by
  induction a with
  | nil => intro l _; rfl
  | cons c cs ih =>
      intro l h
      have hpc := h c (List.mem_cons_self c cs)
      rw [List.cons_append, List.dropWhile_cons, hpc]
      simp only [if_pos rfl]
      exact ih l (fun x hx => h x (List.mem_cons_of_mem c hx))

/-- Joining a directory with a separator-free component lands directly
inside that directory: the parent of the joined path is the directory. -/
theorem dirname_joinPath (d c : String) (h : '/' ∉ c.data) :
    dirname (joinPath d c) = d := by
  have hdata : (joinPath d c).data = (d.data ++ ['/']) ++ c.data := by
    rw [joinPath, strDataAppend, strDataAppend]
  rw [dirname, hdata]
  rw [List.reverse_append, List.reverse_append]
  have hrev : List.reverse ['/'] ++ d.data.reverse
      = '/' :: d.data.reverse := rfl
  rw [hrev]
  rw [dropWhile_append_of_all _ c.data.reverse _
      (fun x hx => by
        have hxc : x ∈ c.data := List.mem_reverse.mp hx
        have hne : ¬ (x = '/') := fun he => h (he ▸ hxc)
        simpa using hne)]
  rw [List.dropWhile_cons]
  simp [strMkData]

/-! ## Claim theorems -/

/-- Claim C3, amended.  `deriveFileName` keeps exactly the characters of
the JavaScript class `[\w\s-]` — ASCII letters, ASCII digits, underscore,
ECMA whitespace (which includes the control characters TAB, LF, VT, FF,
CR) and hyphen — strips every other character (Unicode letters included,
since `\w` without the `u` flag is ASCII-only), and appends `.mp4`.
Consequently the output never contains slashes, backslashes, quotes or
non-whitespace shell metacharacters and always ends in `.mp4`, but
whitespace control characters from the hint survive and underscores are
kept. -/
theorem C3_thm (hint : Option String) :
    (deriveFileName hint).data
      = (baseChoice hint).data.filter jsKeepChar ++ ['.', 'm', 'p', '4'] ∧
    (∀ c ∈ (deriveFileName hint).data,
      jsKeepChar c = true ∨ c ∈ (['.', 'm', 'p', '4'] : List Char)) ∧
    '/' ∉ (deriveFileName hint).data ∧
    '\\' ∉ (deriveFileName hint).data ∧
    '"' ∉ (deriveFileName hint).data ∧
    ';' ∉ (deriveFileName hint).data ∧
    '|' ∉ (deriveFileName hint).data ∧
    '&' ∉ (deriveFileName hint).data ∧
    '$' ∉ (deriveFileName hint).data ∧
    '<' ∉ (deriveFileName hint).data ∧
    '>' ∉ (deriveFileName hint).data ∧
    (∃ stem, (deriveFileName hint).data = stem ++ ['.', 'm', 'p', '4']) ∧
    deriveFileName (some "é") = ".mp4" ∧
    deriveFileName (some "_x") = "_x.mp4" := by
  refine ⟨deriveFileName_data hint, deriveFileName_chars hint,
    deriveFileName_not_mem hint _ (by decide) (by decide),
    deriveFileName_not_mem hint _ (by decide) (by decide),
    deriveFileName_not_mem hint _ (by decide) (by decide),
    deriveFileName_not_mem hint _ (by decide) (by decide),
    deriveFileName_not_mem hint _ (by decide) (by decide),
    deriveFileName_not_mem hint _ (by decide) (by decide),
    deriveFileName_not_mem hint _ (by decide) (by decide),
    deriveFileName_not_mem hint _ (by decide) (by decide),
    deriveFileName_not_mem hint _ (by decide) (by decide),
    ⟨_, deriveFileName_data hint⟩, by decide, by decide⟩

/-- Witness for C3_thm at a concrete hint and character. -/
theorem C3_witness :
    jsKeepChar 'a' = true ∨ 'a' ∈ (['.', 'm', 'p', '4'] : List Char) :=
  (C3_thm (some "a/b")).2.1 'a' (by decide)

/-- Counterexample to claim C3 as stated: the hint `"a\tb"` contains the
control character TAB, yet the output also contains TAB (TAB matches
`\s` and survives the filter), so the output is not free of control
characters.  Moreover `é` — a Unicode letter — is stripped even though
the claim says Unicode letters are kept, and `_` — not a letter, digit,
whitespace or hyphen — is kept even though the claim says exactly those
characters are kept. -/
theorem C3_counterexample :
    '\t'.toNat < 32 ∧
    '\t' ∈ ("a\tb" : String).data ∧
    '\t' ∈ (deriveFileName (some "a\tb")).data ∧
    deriveFileName (some "é") = ".mp4" ∧
    deriveFileName (some "a_b") = "a_b.mp4" := by decide

/-- Claim C9, amended.  When the hint is absent or empty the fixed
default base name `'视频'` is used, but its CJK characters are all
stripped by the ASCII-only `\w` filter, so the result is exactly
`".mp4"`, a degenerate file name with an empty base.  There is no error
condition: every input yields a string ending in `.mp4`. -/
theorem C9_thm :
    baseChoice none = "视频" ∧
    baseChoice (some "") = "视频" ∧
    deriveFileName none = ".mp4" ∧
    deriveFileName (some "") = ".mp4" ∧
    ∀ hint, ∃ stem, (deriveFileName hint).data = stem ++ ['.', 'm', 'p', '4'] :=
  ⟨rfl, by decide, by decide, by decide,
   fun hint => ⟨_, deriveFileName_data hint⟩⟩

/-- Counterexample to claim C9 as stated: the default output is the bare
extension `".mp4"`, whose base name (the part before the dot) is empty —
a degenerate file name. -/
theorem C9_counterexample :
    deriveFileName none = ".mp4" ∧
    (deriveFileName none).data = ['.', 'm', 'p', '4'] ∧
    (deriveFileName none).data.takeWhile (fun c => c != '.') = [] := by decide

/-- Claim C5: `isHLS url` is true iff `url` contains the literal
substring `.m3u8` (wherever it occurs, query strings included), and for
any request whose (non-empty) URL does not contain `.m3u8` the handler
spawns no process, allocates no temporary path, and returns the
direct-link response carrying the original URL unchanged together with
the derived file name. -/
theorem C5_thm :
    (∀ url : String, isHLS url = true ↔
      ∃ pre suf : List Char,
        url.data = pre ++ ['.', 'm', '3', 'u', '8'] ++ suf) ∧
    (∀ (env : Env) (req : DownloadRequest) (url : String),
      req.videoUrl = some url → url ≠ "" → isHLS url = false →
      post env req
        = some (ApiResponse.directLink url (deriveFileName req.fileName),
                noEffects)) := by
  constructor
  · intro url
    rw [isHLS, strIncludes]
    exact hasSub_iff (String.data ".m3u8") url.data
  · intro env req url hurl hne hhls
    simp [post, hurl, hne, hhls]

/-- Witness for C5_thm: a URL with `.m3u8` in its query string is
classified as HLS, and a plain MP4 URL yields the direct-link
response with no spawn. -/
theorem C5_witness :
    (∃ pre suf : List Char,
      ("https://cdn.example/v?f=.m3u8" : String).data
        = pre ++ ['.', 'm', '3', 'u', '8'] ++ suf) ∧
    post ⟨[], none, false, false, "u0", "/tmp"⟩
         ⟨some "https://a/v.mp4", some "clip"⟩
      = some (ApiResponse.directLink "https://a/v.mp4"
          (deriveFileName (some "clip")), noEffects) :=
  ⟨(C5_thm.1 "https://cdn.example/v?f=.m3u8").mp (by decide),
   C5_thm.2 ⟨[], none, false, false, "u0", "/tmp"⟩
     ⟨some "https://a/v.mp4", some "clip"⟩ "https://a/v.mp4"
     rfl (by decide) (by decide)⟩

/-- Claim C6: the advisory is a pure function of `(url, fileName)`
returning a fixed ordered list of exactly four entries — first the
yt-dlp and FFmpeg entries whose `command` fields interpolate the URL and
file name literally into the two command templates, then two note-only
GUI download-manager entries with no `command` field. -/
theorem C6_thm (url fn : String) :
    (fallbackMethods url fn).length = 4 ∧
    (fallbackMethods url fn).map MethodEntry.command
      = [some ("yt-dlp \"" ++ url ++ "\" -o \"" ++ fn ++ "\""),
         some ("ffmpeg -i \"" ++ url ++ "\" -c copy \"" ++ fn ++ "\""),
         none, none] ∧
    (fallbackMethods url fn).map MethodEntry.note
      = [none, none, some "直接粘贴链接即可下载", some "支持HLS流下载"] ∧
    (fallbackMethods url fn).map MethodEntry.name
      = ["yt-dlp", "FFmpeg", "IDM (Internet Download Manager)", "迅雷"] :=
  ⟨rfl, rfl, rfl, rfl⟩

/-- Claim C7, amended.  The advisory commands interpolate the URL into a
double-quoted argument with no escaping, so the field boundaries are
preserved only when the URL and file name contain no double quote: in
that case a quote-honouring consumer reads exactly the two intended
quoted arguments.  A URL containing a double quote terminates the quoted
argument early (see the counterexample). -/
theorem C7_thm (url fn : String)
    (hu : '"' ∉ url.data) (hf : '"' ∉ fn.data) :
    quotedFields (ytDlpCmd url fn) = [url.data, fn.data] ∧
    quotedFields (ffmpegCmd url fn) = [url.data, fn.data] := by
  constructor
  · rw [quotedFields]
    have hdata : (ytDlpCmd url fn).data
        = ("yt-dlp " : String).data
            ++ '"' :: (url.data
            ++ '"' :: ((" -o " : String).data
            ++ '"' :: (fn.data ++ ['"']))) := by
      rw [ytDlpCmd, strDataAppend, strDataAppend, strDataAppend,
          strDataAppend]
      simp only [List.append_assoc]
      rfl
    rw [hdata]
    exact quoteSpans_template _ _ _ _ (by decide) hu (by decide) hf
  · rw [quotedFields]
    have hdata : (ffmpegCmd url fn).data
        = ("ffmpeg -i " : String).data
            ++ '"' :: (url.data
            ++ '"' :: ((" -c copy " : String).data
            ++ '"' :: (fn.data ++ ['"']))) := by
      rw [ffmpegCmd, strDataAppend, strDataAppend, strDataAppend,
          strDataAppend]
      simp only [List.append_assoc]
      rfl
    rw [hdata]
    exact quoteSpans_template _ _ _ _ (by decide) hu (by decide) hf

/-- Witness for C7_thm at a quote-free URL and file name. -/
theorem C7_witness :
    quotedFields (ytDlpCmd "https://cdn.example/live/index.m3u8" "My Clip.mp4")
      = [("https://cdn.example/live/index.m3u8" : String).data,
         ("My Clip.mp4" : String).data] :=
  (C7_thm "https://cdn.example/live/index.m3u8" "My Clip.mp4"
    (by decide) (by decide)).1

/-- Counterexample to claim C7 as stated: for a source URL containing a
double quote, the quoted fields of the generated yt-dlp command are NOT
the intended `[url, fileName]` — the quote inside the URL terminates the
quoted argument early, so the first field a quote-honouring consumer
reads is only the part of the URL before its quote. -/
theorem C7_counterexample :
    '"' ∈ ("https://evil/\".m3u8" : String).data ∧
    quotedFields (ytDlpCmd "https://evil/\".m3u8" "v.mp4")
      ≠ [("https://evil/\".m3u8" : String).data, ("v.mp4" : String).data] ∧
    (quotedFields (ytDlpCmd "https://evil/\".m3u8" "v.mp4")).head?
      = some ("https://evil/" : String).data := by decide

/-- Claim C10: for every hint, the derived safe file name contains no
double quote, slash or backslash; hence the `Content-Disposition` value
`attachment; filename="<name>"` contains exactly the two delimiting
quotes (the quoted filename cannot be terminated early), and joining the
OS temp directory with `<uuid>_<name>` stays directly inside the temp
directory whenever the uuid itself has no separators (Node's
`randomUUID()` is hex digits and hyphens). -/
theorem C10_thm (hint : Option String) (uuid d : String)
    (hu : '/' ∉ uuid.data) (hb : '\\' ∉ uuid.data) :
    '"' ∉ (deriveFileName hint).data ∧
    '/' ∉ (deriveFileName hint).data ∧
    '\\' ∉ (deriveFileName hint).data ∧
    (contentDisposition (deriveFileName hint)).data.count '"' = 2 ∧
    '/' ∉ (uuid ++ "_" ++ deriveFileName hint).data ∧
    '\\' ∉ (uuid ++ "_" ++ deriveFileName hint).data ∧
    dirname (joinPath d (uuid ++ "_" ++ deriveFileName hint)) = d := by
  have hq : '"' ∉ (deriveFileName hint).data :=
    deriveFileName_not_mem hint _ (by decide) (by decide)
  have hs : '/' ∉ (deriveFileName hint).data :=
    deriveFileName_not_mem hint _ (by decide) (by decide)
  have hbs : '\\' ∉ (deriveFileName hint).data :=
    deriveFileName_not_mem hint _ (by decide) (by decide)
  have hcomp : ∀ (c : Char), c ∉ uuid.data → c ∉ ("_" : String).data →
      c ∉ (deriveFileName hint).data →
      c ∉ (uuid ++ "_" ++ deriveFileName hint).data := by
    intro c h1 h2 h3 hmem
    rw [strDataAppend, strDataAppend] at hmem
    rcases List.mem_append.mp hmem with hm | hm
    · rcases List.mem_append.mp hm with hm2 | hm2
      · exact h1 hm2
      · exact h2 hm2
    · exact h3 hm
  have hcompSlash : '/' ∉ (uuid ++ "_" ++ deriveFileName hint).data :=
    hcomp '/' hu (by decide) hs
  refine ⟨hq, hs, hbs, ?_, hcompSlash, hcomp '\\' hb (by decide) hbs,
    dirname_joinPath d _ hcompSlash⟩
  rw [contentDisposition, strDataAppend, strDataAppend]
  rw [List.count_append, List.count_append]
  rw [List.count_eq_zero.mpr hq]
  decide

/-- Witness for C10_thm at a hostile hint and a concrete uuid. -/
theorem C10_witness :
    dirname (joinPath "/tmp"
      ("123e4567-e89b-12d3-a456-426614174000" ++ "_"
        ++ deriveFileName (some "My/Clip\"!"))) = "/tmp" :=
  (C10_thm (some "My/Clip\"!") "123e4567-e89b-12d3-a456-426614174000" "/tmp"
    (by decide) (by decide)).2.2.2.2.2.2

/-- Claim C2: the deadline is the fixed `10 * 60 * 1000` ms = 600
seconds; if the timeout fires before the process settles the promise,
the promise rejects with the timeout error and the process has been
SIGKILLed, and every event after the first settling one — including a
later process exit — is discarded (first writer wins); symmetrically, if
the process exits with code 0 first, the promise stays resolved and the
later timeout rejection is discarded; once settled, the settlement never
changes, so the caller observes exactly one resolution. -/
theorem C2_thm :
    TIMEOUT_MS = 600 * 1000 ∧
    (∀ (p : String) (pre rest : List RunnerEvent),
      (∀ x ∈ pre, settles x = false) →
      (runTrace p (pre ++ RunnerEvent.timeoutFire :: rest)).settled
          = some (Settlement.rejected FfmpegErr.timedOut) ∧
      (runTrace p (pre ++ RunnerEvent.timeoutFire :: rest)).killed = true) ∧
    (∀ (p : String) (pre rest : List RunnerEvent),
      (∀ x ∈ pre, settles x = false) →
      (runTrace p (pre ++ RunnerEvent.close (some 0) :: rest)).settled
          = some (Settlement.resolved p)) ∧
    (∀ (p : String) (evs : List RunnerEvent) (st : RunnerState)
        (s : Settlement), st.settled = some s →
      (evs.foldl (runnerStep p) st).settled = some s) := by
  refine ⟨rfl, ?_, ?_, ?_⟩
  · intro p pre rest hpre
    constructor
    · rw [runTrace_first_settling p pre RunnerEvent.timeoutFire rest hpre
            rfl]
      rfl
    · rw [runTrace, List.foldl_append,
          foldl_data_only p pre initState hpre, List.foldl_cons]
      exact foldl_killed_stays p rest _ rfl
  · intro p pre rest hpre
    rw [runTrace_first_settling p pre (RunnerEvent.close (some 0)) rest hpre
          rfl]
    rfl
  · exact fun p evs st s h => foldl_settled_stays p evs st s h

/-- Witness for C2_thm: a trace where stderr output is followed by the
timeout and only then by a (successful!) process exit still rejects with
the timeout error, and a trace where exit code 0 precedes the timeout
stays resolved. -/
theorem C2_witness :
    (runTrace "o" ([RunnerEvent.stderrData "frame=1"]
        ++ RunnerEvent.timeoutFire :: [RunnerEvent.close (some 0)])).settled
      = some (Settlement.rejected FfmpegErr.timedOut) ∧
    (runTrace "o" ([] ++ RunnerEvent.close (some 0)
        :: [RunnerEvent.timeoutFire])).settled
      = some (Settlement.resolved "o") :=
  ⟨(C2_thm.2.1 "o" [RunnerEvent.stderrData "frame=1"]
      [RunnerEvent.close (some 0)] (by decide)).1,
   C2_thm.2.2.1 "o" [] [RunnerEvent.timeoutFire] (by decide)⟩

/-- Claim C8: a missing (`none`) or empty (`""`, falsy in JS) `videoUrl`
is rejected immediately with the 400 caller-error response, before the
file name is derived and before anything else happens: no process is
spawned, no temporary path is allocated, no deletion happens, and the
response is by construction distinct from the transcoding-failure
(advisory) response. -/
theorem C8_thm (env : Env) (req : DownloadRequest)
    (h : req.videoUrl = none ∨ req.videoUrl = some "") :
    post env req = some (ApiResponse.errorMissingUrl, noEffects) ∧
    noEffects.spawned = false ∧
    noEffects.tempPathAllocated = false ∧
    noEffects.unlinkAttempts = 0 ∧
    (∀ e s m u f, ApiResponse.errorMissingUrl
        ≠ ApiResponse.fallback e s m u f) := by
  refine ⟨?_, rfl, rfl, rfl, fun e s m u f hx => by cases hx⟩
  rcases h with h | h <;> simp [post, h]

/-- Witness for C8_thm at a concrete request with a missing URL. -/
theorem C8_witness :
    post ⟨[], none, false, false, "u8", "/tmp"⟩ ⟨none, some "hint"⟩
      = some (ApiResponse.errorMissingUrl, noEffects) :=
  (C8_thm ⟨[], none, false, false, "u8", "/tmp"⟩ ⟨none, some "hint"⟩
    (Or.inl rfl)).1

/-- Claim C1, amended.  When the transcoder promise resolves (a
temporary output file was created): if the read succeeds, exactly one
deletion attempt is made on the temporary file and a deletion failure is
swallowed (the successful file response is returned either way, the file
merely leaking when the unlink fails); but if the read fails, control
jumps to the same `catch` as a transcoder failure, so NO deletion
attempt occurs (the temporary file always remains on disk) and the
outcome is the generic advisory failure response, not a distinct
"output unreadable" error. -/
theorem C1_thm (env : Env) (req : DownloadRequest) (url : String)
    (hurl : req.videoUrl = some url) (hne : url ≠ "")
    (hhls : isHLS url = true)
    (hok : (runTrace (outPath env (deriveFileName req.fileName))
        env.events).settled
      = some (Settlement.resolved
          (outPath env (deriveFileName req.fileName)))) :
    (∀ bytes, env.readResult = some bytes →
      post env req
        = some (ApiResponse.fileResponse bytes
            (contentDisposition (deriveFileName req.fileName)) bytes.length,
          ⟨true, true, 1, env.unlinkFails⟩)) ∧
    (env.readResult = none →
      post env req
        = some (ApiResponse.fallback convErrMsg convSuggestion
            (fallbackMethods url (deriveFileName req.fileName))
            url (deriveFileName req.fileName),
          ⟨true, true, 0, true⟩)) := by
  constructor
  · intro bytes hb
    simp [post, hurl, hne, hhls, hok, hb]
  · intro hb
    simp [post, hurl, hne, hhls, hok, hb]

/-- Witness for C1_thm: a successful run with a successful read makes
exactly one deletion attempt. -/
theorem C1_witness :
    post ⟨[RunnerEvent.close (some 0)], some [7, 7], false, false,
          "u1", "/tmp"⟩
         ⟨some "http://h/x.m3u8", some "clip"⟩
      = some (ApiResponse.fileResponse [7, 7]
          (contentDisposition (deriveFileName (some "clip"))) 2,
        ⟨true, true, 1, false⟩) :=
  (C1_thm ⟨[RunnerEvent.close (some 0)], some [7, 7], false, false,
      "u1", "/tmp"⟩
    ⟨some "http://h/x.m3u8", some "clip"⟩ "http://h/x.m3u8"
    rfl (by decide) (by decide) rfl).1 [7, 7] rfl

/-- Counterexample to claim C1 as stated: in a run where the process
resolves Ok and the subsequent read fails, the number of deletion
attempts is 0 (not exactly one), the temporary file remains on disk, and
the outcome is the generic advisory failure, not a distinct
"output unreadable" ProcessSpawnError-equivalent. -/
theorem C1_counterexample :
    ∃ r, post ⟨[RunnerEvent.close (some 0)], none, false, false,
            "u2", "/tmp"⟩
          ⟨some "http://h/y.m3u8", some "clip"⟩ = some r ∧
      r.2.unlinkAttempts = 0 ∧
      r.2.tempFileAtReturn = true ∧
      r.1 = ApiResponse.fallback convErrMsg convSuggestion
          (fallbackMethods "http://h/y.m3u8" (deriveFileName (some "clip")))
          "http://h/y.m3u8" (deriveFileName (some "clip")) := by
  refine ⟨(ApiResponse.fallback convErrMsg convSuggestion
      (fallbackMethods "http://h/y.m3u8" (deriveFileName (some "clip")))
      "http://h/y.m3u8" (deriveFileName (some "clip")),
      ⟨true, true, 0, true⟩), ?_, rfl, rfl, rfl⟩
  rfl

/-- Claim C4, amended.  A close event with non-zero exit code (after
data-only events) rejects the promise with an error carrying both the
accumulated stderr diagnostic and the exit code — the NonZeroExit
shape — and the handler returns the advisory failure response with a
non-empty error message and exactly four advisory entries; however, the
failure path performs no deletion attempt, so a temporary file is absent
afterwards only if the failed transcoder did not create one — if it left
a (partial) output file, that file remains on disk. -/
theorem C4_thm (env : Env) (req : DownloadRequest) (url : String)
    (pre rest : List RunnerEvent) (c : Int)
    (hurl : req.videoUrl = some url) (hne : url ≠ "")
    (hhls : isHLS url = true)
    (hev : env.events = pre ++ RunnerEvent.close (some c) :: rest)
    (hpre : ∀ x ∈ pre, settles x = false) (hc : c ≠ 0) :
    (runTrace (outPath env (deriveFileName req.fileName))
        env.events).settled
      = some (Settlement.rejected
          (FfmpegErr.nonZeroExit (some c) (stderrAccum pre))) ∧
    post env req
      = some (ApiResponse.fallback convErrMsg convSuggestion
          (fallbackMethods url (deriveFileName req.fileName))
          url (deriveFileName req.fileName),
        ⟨true, true, 0, env.createdOnFailure⟩) ∧
    convErrMsg ≠ "" ∧
    (fallbackMethods url (deriveFileName req.fileName)).length = 4 := by
  have hset : (runTrace (outPath env (deriveFileName req.fileName))
      env.events).settled
      = some (Settlement.rejected
          (FfmpegErr.nonZeroExit (some c) (stderrAccum pre))) := by
    rw [hev, runTrace_first_settling _ pre (RunnerEvent.close (some c)) rest
          hpre rfl]
    have hcc : ¬ ((some c : Option Int) = some 0) := by
      intro hx
      injection hx with hx
      exact hc hx
    simp [runnerStep, hcc]
  refine ⟨hset, ?_, by decide, rfl⟩
  simp [post, hurl, hne, hhls, hset]

/-- Witness for C4_thm at a concrete failing run. -/
theorem C4_witness :
    post ⟨[RunnerEvent.stderrData "boom", RunnerEvent.close (some 1)],
          none, false, true, "u3", "/tmp"⟩
         ⟨some "http://h/z.m3u8", none⟩
      = some (ApiResponse.fallback convErrMsg convSuggestion
          (fallbackMethods "http://h/z.m3u8" (deriveFileName none))
          "http://h/z.m3u8" (deriveFileName none),
        ⟨true, true, 0, true⟩) :=
  (C4_thm ⟨[RunnerEvent.stderrData "boom", RunnerEvent.close (some 1)],
      none, false, true, "u3", "/tmp"⟩
    ⟨some "http://h/z.m3u8", none⟩ "http://h/z.m3u8"
    [RunnerEvent.stderrData "boom"] [] 1
    rfl (by decide) (by decide) rfl (by decide) (by decide)).2.1

/-- Counterexample to claim C4 as stated: after a non-zero exit of a
transcoder run that did create a (partial) output file, the temporary
file remains on disk when the handler returns — no deletion attempt is
made on the failure path. -/
theorem C4_counterexample :
    ∃ r, post ⟨[RunnerEvent.stderrData "err", RunnerEvent.close (some 1)],
            none, false, true, "u4", "/tmp"⟩
          ⟨some "http://h/w.m3u8", none⟩ = some r ∧
      r.2.tempFileAtReturn = true ∧
      r.2.unlinkAttempts = 0 := by
  refine ⟨(ApiResponse.fallback convErrMsg convSuggestion
      (fallbackMethods "http://h/w.m3u8" (deriveFileName none))
      "http://h/w.m3u8" (deriveFileName none),
      ⟨true, true, 0, true⟩), ?_, rfl, rfl⟩
  rfl

end MoonTV
